import Mathlib

/-!
Verification development for the `paddy` optimisation package
(`paddy/Paddy_Parameter.py`, `paddy/Paddy_Runner.py`, `paddy/utils.py`).

The Python source is shallowly embedded:

* numeric values are exact rationals (`ℚ`); `np.round` / Python `round`
  (round-half-to-even) is `roundHalfEven`; `np.clip` is `clip`;
* Python list indexing (with negative indices raising `IndexError` when out
  of range) is `pyGet`, returning `Option`;
* a Python `dict` keyed by `str(counter)` is an association list where a
  write shadows previous bindings (`genWrite` / `genGet`);
* fallible code paths (`IndexError`, `KeyError`, empty-array errors) return
  `none` / dedicated error constructors.

Randomness (`random.choice`, `np.random.normal`) is modelled by universally
quantified oracle inputs: every theorem quantifies over all possible draw
outcomes, which covers every behaviour of the randomised source.
-/

/-- Round-half-to-even on rationals: the rounding used by `np.round` and by
Python 3's built-in `round` (ties go to the even integer). -/
def roundHalfEven (q : ℚ) : ℤ :=
  if q - (q.floor : ℚ) < 1/2 then q.floor
  else if 1/2 < q - (q.floor : ℚ) then q.floor + 1
  else if q.floor % 2 = 0 then q.floor else q.floor + 1

/-- `np.clip(x, lo, hi)`, i.e. `min(hi, max(lo, x))`. -/
def clip (x lo hi : ℚ) : ℚ := min hi (max lo x)

/-- Python list indexing `l[i]`: negative indices count from the end, and an
index outside the list raises `IndexError` (modelled as `none`). -/
def pyGet (l : List α) (i : ℤ) : Option α :=
  if 0 ≤ i then l.get? i.toNat
  else if 0 ≤ i + l.length then l.get? (i + l.length).toNat
  else none

/-- The slice `[fit[i] for i in range(first, last+1)]`; an empty range yields
`[]`, an out-of-range index raises (`none`). -/
def sliceFit (fit : List ℚ) (first last : ℤ) : Option (List ℚ) :=
  if last + 1 ≤ first then some []
  else (List.range (last + 1 - first).toNat).mapM
    (fun (k : ℕ) => pyGet fit (first + (k : ℤ)))

/-- Python dict write `d[str(k)] = v` (shadowing association list). -/
def genWrite (g : List (ℕ × (ℤ × ℤ))) (k : ℕ) (v : ℤ × ℤ) :
    List (ℕ × (ℤ × ℤ)) := (k, v) :: g

/-- Python dict read `d[str(k)]` (`none` = `KeyError`). -/
def genGet (g : List (ℕ × (ℤ × ℤ))) (k : ℕ) : Option (ℤ × ℤ) :=
  (g.find? (fun e => e.1 = k)).map (fun e => e.2)

/-- `fitness[np.argmax(fitness)]`: the maximum value of a nonempty list
(`none` on an empty one, where `np.argmax` raises). -/
def listMax : List ℚ → Option ℚ
  | [] => none
  | x :: xs => some (xs.foldl max x)

/-! ## `paddy/Paddy_Parameter.py`: the `PaddyParameter` class

Limits are modelled as finite rationals.  The source additionally accepts
`±inf` as a limit endpoint (in which case the constructor forbids
normalisation); an infinite endpoint makes the corresponding bound
vacuous, so the finite model carries the whole content of the bound
claims. -/

inductive ParamType where
  | integer
  | continuous
deriving Repr, DecidableEq

inductive GaussianType where
  | default
  | scaled
deriving Repr, DecidableEq

/-- The attributes of a `PaddyParameter` instance.  `rangeMin`, `rangeMax`,
`rangeStep` are `param_range[0..2]`. -/
structure PaddyParameter where
  rangeMin : ℚ
  rangeMax : ℚ
  rangeStep : ℚ
  paramType : ParamType
  limits : Option (ℚ × ℚ)
  gaussian : GaussianType
  normalization : Bool
deriving Repr, DecidableEq

/-- The limit checks of `PaddyParameter.__init__` (lines 118-124). -/
def limitsValid : Option (ℚ × ℚ) → ℚ → ℚ → Prop
  | none, _, _ => True
  | some (lo, hi), rmin, rmax =>
    ¬ (lo > hi) ∧ lo ≠ hi ∧ ¬ (rmin < lo ∨ rmax > hi)

instance instDecidableLimitsValid :
    ∀ (l : Option (ℚ × ℚ)) (a b : ℚ), Decidable (limitsValid l a b)
  | none, _, _ => Decidable.isTrue trivial
  | some (_, _), _, _ => instDecidableAnd

/-- The validation performed by `PaddyParameter.__init__` (construction
succeeds iff no `PaddyParamError` is raised; the `gaussian`/`param_type`
membership checks always pass in the typed model). -/
def PaddyParameter.valid (p : PaddyParameter) : Prop :=
  ¬ (p.rangeMin > p.rangeMax) ∧
  limitsValid p.limits p.rangeMin p.rangeMax ∧
  (p.limits = none → p.normalization = false)

instance (p : PaddyParameter) : Decidable p.valid := instDecidableAnd

/-- `norm_p`: min-max feature scaling `(v - lo) / (hi - lo)` (the source
subscripts `self.limits`, so limits must be present; calls in this file are
guarded by validity). -/
def PaddyParameter.normP (p : PaddyParameter) (pVal : ℚ) : ℚ :=
  match p.limits with
  | some (lo, hi) => (pVal - lo) / (hi - lo)
  | none => 0

/-- `inverse_norm_p`: `ip_val * (hi - lo) + lo`. -/
def PaddyParameter.inverseNormP (p : PaddyParameter) (ipVal : ℚ) : ℚ :=
  match p.limits with
  | some (lo, hi) => ipVal * (hi - lo) + lo
  | none => 0

/-- Length of `np.arange(start, stop, step)` for `step ≠ 0`:
`max(0, ceil((stop - start) / step))`. -/
def arangeLen (start stop step : ℚ) : ℕ :=
  (⌈(stop - start) / step⌉).toNat

/-- `np.arange(start, stop, step)` over exact rationals. -/
def arange (start stop step : ℚ) : List ℚ :=
  (List.range (arangeLen start stop step)).map
    (fun (k : ℕ) => start + (k : ℚ) * step)

/-- The discretised domain `random.choice` draws from in `random_init`:
`np.arange(range[0], range[1] + range[2], range[2])`. -/
def PaddyParameter.randomInitChoices (p : PaddyParameter) : List ℚ :=
  arange p.rangeMin (p.rangeMax + p.rangeStep) p.rangeStep

/-- `random_init` given the outcome `choice` of `random.choice`: the
returned candidate is `[value, 0]` after integer rounding if requested. -/
def PaddyParameter.randomInit (p : PaddyParameter) (choice : ℚ) : ℚ × ℚ :=
  match p.paramType with
  | .integer => ((roundHalfEven choice : ℚ), 0)
  | .continuous => (choice, 0)

/-- `new_seed_init(values)` given the outcomes of the two
`np.random.normal` draws: `draw0` is the value drawn for `b[0]` (drawn
around `values[0]`, or around `norm_p(values[0])` when normalising) and
`draw1` the one for the gaussian term `b[1]`.  Returns `none` exactly where
the source raises (`norm_p` subscripting `None` limits). -/
def PaddyParameter.newSeedInit (p : PaddyParameter) (_values : ℚ × ℚ)
    (draw0 draw1 : ℚ) : Option (ℚ × ℚ) :=
  let b1 : ℚ := if p.gaussian = .scaled then draw1 else 0
  let b0 : Option ℚ :=
    if p.normalization = false then
      match p.limits with
      | none => some draw0
      | some (lo, hi) => some (clip draw0 lo hi)
    else
      match p.limits with
      | none => none
      | some (lo, hi) => some (clip (p.inverseNormP draw0) lo hi)
  match b0 with
  | none => none
  | some v =>
    match p.paramType with
    | .integer => some ((roundHalfEven v : ℚ), b1)
    | .continuous => some (v, b1)

/-- `get_ecludian_values`: the coordinate used for neighbor counting. -/
def PaddyParameter.getEcludianValues (p : PaddyParameter) (pVals : ℚ × ℚ) : ℚ :=
  if p.normalization = false then pVals.1 else p.normP pVals.1

/-! ## `paddy/utils.py`: `paddy_recover`

A pickle file on disk is modelled by the bytes `readline` returns (its
first line) together with the outcome of `pickle.load` on it (`none` when
`pickle.load` raises).  A missing file is `Option.none` at the call site.
The runner type is a type parameter `β`. -/

structure PickleFile (β : Type) where
  firstLine : List ℕ
  loadResult : Option β

/-- `bytes.rfind(b)` on the first line: the highest index holding `b`,
`-1` when absent. -/
def bytesRfind (l : List ℕ) (b : ℕ) : ℤ :=
  match (l.reverse).findIdx? (fun x => x = b) with
  | some i => (l.length : ℤ) - 1 - i
  | none => -1

/-- The structural-integrity probe: `pickle_binary.rfind(b'\x80') != 0`
signals corruption, so the file is accepted when the last `0x80` byte of
the first line sits at offset 0. -/
def markerOk (f : PickleFile β) : Bool := bytesRfind f.firstLine 128 = 0

inductive RecoveryOutcome (β : Type) where
  /-- `pickle.load` succeeded and the runner is returned. -/
  | ok (r : β)
  /-- `PaddyRecoveryError(BAD_PICKLES)`: both files fail the marker check. -/
  | recErrBadPickles
  /-- `PaddyRecoveryError(NULL_BACKUP)`: primary failed the check and no
  backup file exists. -/
  | recErrNullBackup
  /-- `PaddyRecoveryError(PFA_PATH_ERROR)`: no primary file. -/
  | recErrPath
  /-- an exception raised by `pickle.load` itself, propagating out of
  `paddy_recover` uncaught (it is not a `PaddyRecoveryError`). -/
  | loadExn
deriving Repr, DecidableEq

/-- `paddy_recover`, as a function of the primary and backup files
(`none` = `os.path.isfile` is false). -/
def paddyRecover (primary backup : Option (PickleFile β)) : RecoveryOutcome β :=
  match primary with
  | some f =>
    if markerOk f then
      match f.loadResult with
      | some r => RecoveryOutcome.ok r
      | none => RecoveryOutcome.loadExn
    else
      match backup with
      | some g =>
        if markerOk g then
          match g.loadResult with
          | some r => RecoveryOutcome.ok r
          | none => RecoveryOutcome.loadExn
        else RecoveryOutcome.recErrBadPickles
      | none => RecoveryOutcome.recErrNullBackup
  | none => RecoveryOutcome.recErrPath

/-! ## `paddy/Paddy_Runner.py`: the `PFARunner` class

The runner state carries the fields the frozen claims are about.  The
reporting dictionary `top_values`, the `verbose`/`file_name`/`recover`
flags and the transient arrays `s`, `Un`, `S` (recomputed from scratch
every iteration and threaded explicitly below) are omitted.

The external collaborators are an `Oracle`:

* `evalFunc` — the user-supplied scoring function `eval_func`;
* `randValue k c` — the outcome of `random.choice` inside `random_init`
  for random seed `k`, dimension `c`;
* `newDraws k c` — the two `np.random.normal` outcomes inside
  `new_seed_init` for the seed appended at ledger index `k`, dimension `c`;
* `pollin` — the final quotas `S[:, 1]` produced by `neighbor_counter`
  from the unpollinated list `s`.  `neighbor_counter` computes them through
  euclidean distances, `np.quantile` and `math.exp`, none of which the
  claims constrain; every theorem below quantifies over all of `Oracle`,
  hence over every value that pipeline can produce (its outputs
  `np.round(Un * s)` are nonnegative integers since `Un ∈ (0,1]` and
  `s ≥ 0`, here `ℕ`).

All theorems quantify over every oracle, so they hold in particular for
the actual randomised implementations. -/

inductive PaddyType where
  | population
  | generational
deriving Repr, DecidableEq

/-- The `PFARunner` attributes used by the claims.  `generationData` is
`generation_data` (`dict` keyed by `str(iteration)` holding
`[first_index, last_index]`), `generationFitness` is
`generation_fitness`. -/
structure RunnerState where
  Qmax : ℤ
  yt : ℤ
  ytPrime : ℤ
  randSeedNumber : ℕ
  r : ℚ
  paddyType : PaddyType
  seedCounter : ℕ
  seedParams : List (List (ℚ × ℚ))
  seedFitness : List ℚ
  paddyCounter : ℕ
  iterations : ℕ
  generationData : List (ℕ × (ℤ × ℤ))
  generationFitness : List (ℕ × List ℚ)
deriving Repr, DecidableEq

structure Oracle where
  evalFunc : List (ℚ × ℚ) → ℚ
  randValue : ℕ → ℕ → ℚ
  newDraws : ℕ → ℕ → ℚ × ℚ
  pollin : RunnerState → List (ℤ × ℚ) → List ℕ

inductive PaddyErr where
  /-- `INT_PARAM_ERROR`: one of `rand_seed_number, yt, Qmax, iterations`
  is below 1. -/
  | intParam
  /-- `RADIUS_ERROR`: negative `r`. -/
  | radius
  /-- `RANDOM_SEED_ERROR`. -/
  | randomSeed
deriving Repr, DecidableEq

/-- `PFARunner.__init__` with `error_handling=True`, over already-numeric
arguments (the container/string coercion ladder of the source is the
identity on integer inputs). -/
def mkRunner (randSeedNumber yt Qmax iterations : ℤ) (r : ℚ)
    (paddyType : PaddyType) : Except PaddyErr RunnerState :=
  if randSeedNumber < 1 ∨ yt < 1 ∨ Qmax < 1 ∨ iterations < 1 then
    Except.error PaddyErr.intParam
  else if r < 0 then Except.error PaddyErr.radius
  else if randSeedNumber < 4 then Except.error PaddyErr.randomSeed
  else Except.ok
    { Qmax := Qmax
      yt := if yt > randSeedNumber then
              roundHalfEven ((randSeedNumber : ℚ) * (75 / 100))
            else yt
      ytPrime := yt
      randSeedNumber := randSeedNumber.toNat
      r := r
      paddyType := paddyType
      seedCounter := 1
      seedParams := []
      seedFitness := []
      paddyCounter := 0
      iterations := iterations.toNat
      generationData := []
      generationFitness := [] }

/-- One random seed row: `random_init()` on every dimension of the space,
in declaration order (`utils.random_propogation` inner loop). -/
def randomSeedRow (space : List PaddyParameter) (o : Oracle) (k : ℕ) :
    List (ℚ × ℚ) :=
  space.enum.map (fun ce => ce.2.randomInit (o.randValue k ce.1))

/-- `utils.random_propogation` at its call site (`seed_counter = 1`): fills
rows `0 .. rand_seed_number - 1` and returns the updated counter
`rand_seed_number` together with the rows. -/
def randomPropogation (space : List PaddyParameter) (o : Oracle)
    (randSeedNumber : ℕ) : ℕ × List (List (ℚ × ℚ)) :=
  (randSeedNumber, (List.range randSeedNumber).map (randomSeedRow space o))

/-- `PFARunner.random_step`: generate the random seeds, evaluate each,
append both to the ledger and close generation 0 as
`[0, rand_seed_number - 1]`. -/
def randomStep (space : List PaddyParameter) (o : Oracle)
    (st : RunnerState) : RunnerState :=
  let pr := randomPropogation space o st.randSeedNumber
  { st with
    seedCounter := pr.1
    seedParams := st.seedParams ++ pr.2
    seedFitness := st.seedFitness ++ pr.2.map o.evalFunc
    generationData :=
      genWrite st.generationData 0 (0, (st.randSeedNumber : ℤ) - 1) }

/-- Data computed by one branch of `sowing_function`: the unpollinated
list `s`, the scope maximum `y_max`, the threshold fitness `yt_val`
(`gen_clone[-yt][1]` is a one-element list that numpy compares and
subtracts pointwise, so it acts as the scalar it contains) and the value
of `self.yt` after the branch. -/
structure SowOut where
  s : List (ℤ × ℚ)
  yMax : ℚ
  ytVal : ℚ
  ytNew : ℤ
deriving Repr, DecidableEq

/-- The list `[[i, seed_fitness[i]] for i in range(first, last+1)]`
(`none` when an index is out of the ledger, where the source raises). -/
def buildPairs (fit : List ℚ) (first last : ℤ) : Option (List (ℤ × ℚ)) :=
  if last + 1 ≤ first then some []
  else (List.range (last + 1 - first).toNat).mapM (fun (k : ℕ) =>
    (pyGet fit (first + (k : ℤ))).map (fun v => (first + (k : ℤ), v)))

/-- `np.argsort` over the fitness list: indices in ascending fitness
order.  (`np.argsort`'s default quicksort is not stable; a stable sort is
used as the deterministic representative — no claim below depends on the
relative order of equal fitness values.) -/
def argsortFit (fit : List ℚ) : List ℤ :=
  ((fit.enum).insertionSort (fun a b => a.2 ≤ b.2)).map (fun e => (e.1 : ℤ))

/-- The `paddy_type == 'generational'` branch of `sowing_function`
(lines 428-453): clamp `yt` to `round(0.75 * count)` when it exceeds the
generation size, sort the generation by fitness, and emit
`s = [[index, Qmax * (y - yt_val)/(y_max - yt_val)]]` for the top `yt`
seeds — each entry guarded by `yt_val != y_max`, so a degenerate top
segment emits nothing.  `none` marks the source's `IndexError`s.  (For
`yt < 0` the source's `while` loop would not terminate; such states are
unreachable, the constructor enforces `yt ≥ 1`.) -/
def sowGenerational (st : RunnerState) (first last : ℤ) : Option SowOut :=
  let count : ℤ := last + 1 - first
  let yt : ℤ :=
    if st.yt > count then roundHalfEven ((count : ℚ) * (75 / 100)) else st.yt
  match buildPairs st.seedFitness first last with
  | none => none
  | some genClone =>
    let sorted := genClone.insertionSort (fun a b => a.2 ≤ b.2)
    match sorted.getLast? with
    | none => none
    | some lastPair =>
      let yMax := lastPair.2
      match pyGet sorted (-yt) with
      | none => none
      | some ytPair =>
        let ytVal := ytPair.2
        let sLoop : Option (List (ℤ × ℚ)) :=
          if ytVal = yMax then some []
          else (List.range yt.toNat).mapM (fun (k : ℕ) =>
            (pyGet sorted (-((k : ℤ) + 1))).map (fun p =>
              (p.1, (st.Qmax : ℚ) * ((p.2 - ytVal) / (yMax - ytVal)))))
        match sLoop with
        | none => none
        | some s => some ⟨s, yMax, ytVal, yt⟩

/-- The `paddy_type == 'population'` branch of `sowing_function`
(lines 454-476): sort the whole fitness ledger, take
`yt_val = sorted[-yt]` (no clamp of `yt` in this branch) and emit entries
for the top `yt` seeds of the population, each guarded by
`yt_val != y_max`. -/
def sowPopulation (st : RunnerState) : Option SowOut :=
  let sortedFit := st.seedFitness.insertionSort (fun a b => a ≤ b)
  match listMax st.seedFitness with
  | none => none
  | some yMax =>
    match pyGet sortedFit (-st.yt) with
    | none => none
    | some ytVal =>
      let idxs := argsortFit st.seedFitness
      let sLoop : Option (List (ℤ × ℚ)) :=
        if ytVal = yMax then some []
        else (List.range st.yt.toNat).mapM (fun (k : ℕ) =>
          match pyGet idxs (-((k : ℤ) + 1)), pyGet sortedFit (-((k : ℤ) + 1)) with
          | some i, some v =>
            some (i, (st.Qmax : ℚ) * ((v - ytVal) / (yMax - ytVal)))
          | _, _ => none)
      match sLoop with
      | none => none
      | some s => some ⟨s, yMax, ytVal, st.yt⟩

/-- `PFARunner.sowing_function`: record the generation's fitness slice in
`generation_fitness`, then run the branch for the active ranking mode.
Returns the mutated state and the `s` list. -/
def sowingFull (st : RunnerState) : Option (RunnerState × List (ℤ × ℚ)) :=
  match genGet st.generationData st.paddyCounter with
  | none => none
  | some fl =>
    match sliceFit st.seedFitness fl.1 fl.2 with
    | none => none
    | some tempGenFit =>
      let st1 := { st with generationFitness :=
        (st.paddyCounter, tempGenFit) :: st.generationFitness }
      match st.paddyType with
      | PaddyType.generational =>
        match sowGenerational st fl.1 fl.2 with
        | none => none
        | some out => some ({ st1 with yt := out.ytNew }, out.s)
      | PaddyType.population =>
        match sowPopulation st with
        | none => none
        | some out => some (st1, out.s)

/-- One offspring of `new_propogation`'s inner `while`: call
`new_seed_init` on every dimension of the parent's row, append the child
row, evaluate `eval_func(seed_params[seed_counter])` (the just-appended
row), append the fitness and bump `seed_counter`. -/
def childParams (space : List PaddyParameter) (parent : List (ℚ × ℚ))
    (draws : ℕ → ℚ × ℚ) : Option (List (ℚ × ℚ)) :=
  space.enum.mapM (fun ce =>
    match parent.get? ce.1 with
    | none => none
    | some pv => ce.2.newSeedInit pv (draws ce.1).1 (draws ce.1).2)

def propagateOne (space : List PaddyParameter) (o : Oracle)
    (st : RunnerState) (parentIdx : ℤ) : Option RunnerState :=
  match pyGet st.seedParams parentIdx with
  | none => none
  | some parent =>
    match childParams space parent (o.newDraws st.seedCounter) with
    | none => none
    | some child =>
      match pyGet (st.seedParams ++ [child]) (st.seedCounter : ℤ) with
      | none => none
      | some evalRow =>
        some { st with
          seedParams := st.seedParams ++ [child]
          seedFitness := st.seedFitness ++ [o.evalFunc evalRow]
          seedCounter := st.seedCounter + 1 }

/-- The per-entry loop of `new_propogation`: `quota` offspring of the
parent at `entry.1`. -/
def propagateSeed (space : List PaddyParameter) (o : Oracle)
    (entry : ℤ × ℕ) (st : RunnerState) : Option RunnerState :=
  (List.range entry.2).foldlM (fun s _ => propagateOne space o s entry.1) st

/-- `PFARunner.new_propogation`: `S_len = sum(S[:, 1])`, the iteration's
generation limits `[seed_counter, seed_counter + S_len - 1]` are fixed
before the loop, all offspring are generated and evaluated, and the
generation record is closed under the current `paddy_counter`. -/
def newPropogation (space : List PaddyParameter) (o : Oracle)
    (st : RunnerState) (S : List (ℤ × ℕ)) : Option RunnerState :=
  let SLen : ℕ := (S.map (fun e => e.2)).sum
  let lims : ℤ × ℤ :=
    ((st.seedCounter : ℤ), (st.seedCounter : ℤ) + (SLen : ℤ) - 1)
  match S.foldlM (fun s e => propagateSeed space o e s) st with
  | none => none
  | some st2 =>
    some { st2 with
      generationData := genWrite st2.generationData st2.paddyCounter lims }

inductive StepOut where
  /-- an uncaught exception inside the iteration. -/
  | err
  /-- the `s_len == 0` early `return` of `run_paddy`: "paddy has
  converged". -/
  | conv (st : RunnerState)
  /-- the iteration completed. -/
  | next (st : RunnerState)
deriving Repr, DecidableEq

/-- One iteration of the `while` loop of `run_paddy` (lines 729-740):
sowing; the empty-scope convergence check; `yt := yt_prime`;
`neighbor_counter` (whose final quotas enter through `o.pollin`, zipped
against the seed indices of `s` as in lines 573-579);
`paddy_counter += 1`; propagation.  The `save_paddy` checkpoint at the
iteration boundary writes files and mutates no runner field, so it is
not part of the state transition; the recovery half of persistence is
modelled by `paddyRecover`. -/
def runnerStep (space : List PaddyParameter) (o : Oracle)
    (st : RunnerState) : StepOut :=
  match sowingFull st with
  | none => StepOut.err
  | some (st1, s) =>
    if s.length = 0 then StepOut.conv st1
    else
      let st2 := { st1 with yt := st1.ytPrime }
      let quotas := o.pollin st2 s
      let S := (s.map (fun e => e.1)).zip quotas
      let st3 := { st2 with paddyCounter := st2.paddyCounter + 1 }
      match newPropogation space o st3 S with
      | none => StepOut.err
      | some st4 => StepOut.next st4

/-- The bookkeeping `run_paddy` performs after the `while` loop exits
normally (lines 741-746; the `top_values` update is reporting-only and
not modelled). -/
def postLoop (st : RunnerState) : Option RunnerState :=
  match genGet st.generationData st.paddyCounter with
  | none => none
  | some fl =>
    match sliceFit st.seedFitness fl.1 fl.2 with
    | none => none
    | some t =>
      some { st with generationFitness :=
        (st.paddyCounter, t) :: st.generationFitness }

inductive RunResult where
  | errR
  | convergedR (st : RunnerState)
  | doneR (st : RunnerState)
  | fuelOut
deriving Repr, DecidableEq

/-- The `while paddy_counter < iterations` loop of `run_paddy`; `fuel`
bounds the recursion (the source loop terminates because `paddy_counter`
increases every iteration, so any `fuel > iterations - paddy_counter`
is enough). -/
def runLoop (space : List PaddyParameter) (o : Oracle) :
    ℕ → RunnerState → RunResult
  | 0, _ => RunResult.fuelOut
  | fuel + 1, st =>
    if st.paddyCounter < st.iterations then
      match runnerStep space o st with
      | StepOut.err => RunResult.errR
      | StepOut.conv s => RunResult.convergedR s
      | StepOut.next s => runLoop space o fuel s
    else
      match postLoop st with
      | none => RunResult.errR
      | some s2 => RunResult.doneR s2

/-- Runner states that occur in a fresh `run_paddy` call: the state right
after `random_step` on a successfully constructed runner, and everything
the loop body produces from such a state. -/
inductive Reached (space : List PaddyParameter) (o : Oracle) :
    RunnerState → Prop where
  | start : ∀ (rsn yt Qmax iterations : ℤ) (r : ℚ) (pt : PaddyType)
      (st0 : RunnerState), mkRunner rsn yt Qmax iterations r pt = Except.ok st0 →
      Reached space o (randomStep space o st0)
  | next : ∀ st st2, Reached space o st →
      runnerStep space o st = StepOut.next st2 → Reached space o st2
  | conv : ∀ st st2, Reached space o st →
      runnerStep space o st = StepOut.conv st2 → Reached space o st2

/-- The loop invariant tying `seed_counter`, the ledger lengths and the
generation records together; established by `random_step` and preserved by
every loop iteration. -/
def LoopInv (st : RunnerState) : Prop :=
  st.seedCounter = st.seedParams.length ∧
  st.seedCounter = st.seedFitness.length ∧
  (∃ f, genGet st.generationData st.paddyCounter =
    some (f, (st.seedCounter : ℤ) - 1)) ∧
  (∀ k, st.paddyCounter < k → genGet st.generationData k = none) ∧
  (∀ n a b c d, genGet st.generationData n = some (a, b) →
    genGet st.generationData (n + 1) = some (c, d) → b + 1 = c) ∧
  genGet st.generationData 0 = some (0, (st.randSeedNumber : ℤ) - 1)

/-! ## Concrete instances used by witnesses and counterexamples -/

/-- A one-dimensional parameter space: unbounded continuous parameter. -/
def wSpace : List PaddyParameter :=
  [⟨0, 1, 1, ParamType.continuous, none, GaussianType.default, false⟩]

/-- Oracle whose random seeds have pairwise distinct fitness `0..4`. -/
def wOracle : Oracle :=
  { evalFunc := fun row => (row.headD (0, 0)).1
    randValue := fun k _ => (k : ℚ)
    newDraws := fun _ _ => (0, 0)
    pollin := fun _ s => s.map (fun _ => 1) }

/-- Oracle producing constant fitness (degenerate all-equal population). -/
def cvOracle : Oracle :=
  { evalFunc := fun _ => 0
    randValue := fun _ _ => 0
    newDraws := fun _ _ => (0, 0)
    pollin := fun _ s => s.map (fun _ => 1) }

/-- The runner `mkRunner 5 2 1 3 1 population` constructs. -/
def wRunner0 : RunnerState :=
  ⟨1, 2, 2, 5, 1, PaddyType.population, 1, [], [], 0, 3, [], []⟩

/-- `wRunner0` after `random_step` with distinct fitness. -/
def wSt : RunnerState := randomStep wSpace wOracle wRunner0

/-- `wRunner0` after `random_step` with constant fitness. -/
def cvState : RunnerState := randomStep wSpace cvOracle wRunner0

/-- `cvState` after the sowing mutations of the converging iteration. -/
def cvConv : RunnerState :=
  ⟨1, 2, 2, 5, 1, PaddyType.population, 5,
   [[(0, 0)], [(0, 0)], [(0, 0)], [(0, 0)], [(0, 0)]],
   [0, 0, 0, 0, 0], 0, 3, [(0, (0, 4))], [(0, [0, 0, 0, 0, 0])]⟩

/-- The state `sowing_function` leaves behind on `wSt`. -/
def wSt1 : RunnerState :=
  ⟨1, 2, 2, 5, 1, PaddyType.population, 5,
   [[(0, 0)], [(1, 0)], [(2, 0)], [(3, 0)], [(4, 0)]],
   [0, 1, 2, 3, 4], 0, 3, [(0, (0, 4))], [(0, [0, 1, 2, 3, 4])]⟩

/-- The state one full iteration on `wSt` produces (two offspring). -/
def wSt4 : RunnerState :=
  ⟨1, 2, 2, 5, 1, PaddyType.population, 7,
   [[(0, 0)], [(1, 0)], [(2, 0)], [(3, 0)], [(4, 0)], [(0, 0)], [(0, 0)]],
   [0, 1, 2, 3, 4, 0, 0], 1, 3, [(1, (5, 6)), (0, (0, 4))],
   [(0, [0, 1, 2, 3, 4])]⟩

/-- A valid pickle file (first line begins with the `0x80` marker). -/
def pfGood : PickleFile ℕ := ⟨[128, 5, 10], some 7⟩

/-- A corrupted pickle file (last `0x80` of the first line not at 0). -/
def pfBad : PickleFile ℕ := ⟨[37, 128], some 7⟩

/-! ## Claim C5: minimum random seeds -/

/-- The runner `mkRunner 4 2 5 5 1 generational` constructs. -/
def runner4ok : RunnerState :=
  ⟨5, 2, 2, 4, 1, PaddyType.generational, 1, [], [], 0, 5, [], []⟩

/-- The runner `mkRunner 5 2 5 5 1 generational` constructs. -/
def runner5ok : RunnerState :=
  ⟨5, 2, 2, 5, 1, PaddyType.generational, 1, [], [], 0, 5, [], []⟩

/-! ## Claim C2: the `yt > count` boundary correction -/

/-- C2 counterexample: a population-mode state whose scope (the whole
fitness ledger, 2 seeds) is smaller than `yt = 3`.  `sowing_function`
performs no reset in the population branch and
`sorted(seed_fitness)[-yt]` raises `IndexError` — refuting "for every
runner state and both ranking modes … the sowing step resets yt … and
selection never raises". -/
def c2State : RunnerState :=
  ⟨1, 3, 3, 4, 1, PaddyType.population, 2, [[(0, 0)], [(1, 0)]], [0, 1],
   0, 3, [(0, (0, 1))], []⟩

/-- A generational state whose current generation (3 seeds) is smaller
than `yt = 5`. -/
def gClampState : RunnerState :=
  ⟨1, 5, 5, 4, 1, PaddyType.generational, 3,
   [[(0, 0)], [(1, 0)], [(2, 0)]], [0, 1, 2], 0, 3, [(0, (0, 2))], []⟩

/-- The runner the spec scenario `yt = 10 > rand_seed_number = 5`
constructs: `yt` is reset to `round(0.75 × 5) = 4`. -/
def runner510 : RunnerState :=
  ⟨1, 4, 10, 5, 1, PaddyType.generational, 1, [], [], 0, 3, [], []⟩

/-! ## Claim C3: `random_init` range bounds -/

/-- A valid spec whose step does not divide the range span:
`np.arange(0, 1 + 0.3, 0.3)` contains `1.2`. -/
def c3Param : PaddyParameter :=
  ⟨0, 1, 3/10, ParamType.continuous, some (0, 1), GaussianType.default, true⟩

/-- A valid integral spec with `step ∣ range.max − range.min`. -/
def c3wParam : PaddyParameter :=
  ⟨0, 2, 1, ParamType.integer, some (0, 2), GaussianType.default, true⟩

/-- A spec with fractional lower limit and `kind = integer`: the clip
lands on `0.4` and the post-clip rounding leaves `[lo, hi]`. -/
def c6Param : PaddyParameter :=
  ⟨1, 2, 1, ParamType.integer, some (2/5, 2), GaussianType.default, false⟩

/-- A continuous normalising spec with limits `[0, 1]`. -/
def c6wParam : PaddyParameter :=
  ⟨0, 1, 1/10, ParamType.continuous, some (0, 1), GaussianType.default, true⟩

/-! ## Theorems -/

theorem ratFloor_eq_intFloor (q : ℚ) : q.floor = ⌊q⌋ := by
  rw [Rat.floor_def', Rat.floor_def]

theorem roundHalfEven_eq_floor (q : ℚ) (h : q - (⌊q⌋ : ℚ) < 1/2) :
    roundHalfEven q = ⌊q⌋ := by
  unfold roundHalfEven
  rw [ratFloor_eq_intFloor, if_pos h]

theorem roundHalfEven_eq_floor_add_one (q : ℚ) (h : 1/2 < q - (⌊q⌋ : ℚ)) :
    roundHalfEven q = ⌊q⌋ + 1 := by
  unfold roundHalfEven
  rw [ratFloor_eq_intFloor, if_neg (by linarith), if_pos h]

theorem roundHalfEven_le (q : ℚ) : (roundHalfEven q : ℚ) ≤ q + 1/2 := by
  unfold roundHalfEven
  rw [ratFloor_eq_intFloor]
  have hf := Int.floor_le q
  have hf2 := Int.sub_one_lt_floor q
  split_ifs <;> push_cast <;> linarith

theorem le_roundHalfEven (q : ℚ) : q - 1/2 ≤ (roundHalfEven q : ℚ) := by
  unfold roundHalfEven
  rw [ratFloor_eq_intFloor]
  have hf := Int.floor_le q
  have hf2 := Int.sub_one_lt_floor q
  split_ifs <;> push_cast <;> linarith

theorem clip_mem (x lo hi : ℚ) (h : lo ≤ hi) :
    lo ≤ clip x lo hi ∧ clip x lo hi ≤ hi := by
  unfold clip
  constructor
  · exact le_min h (le_max_left lo x)
  · exact min_le_left hi (max lo x)

theorem pyGet_neg_isSome (l : List α) (yt : ℤ) (h1 : 1 ≤ yt)
    (h2 : yt ≤ l.length) : (pyGet l (-yt)).isSome := by
  unfold pyGet
  have hlt : ¬ (0 ≤ -yt) := by omega
  simp only [hlt, if_false]
  have h3 : 0 ≤ -yt + l.length := by omega
  simp only [h3, if_true]
  have hb : (-yt + (l.length : ℤ)).toNat < l.length := by omega
  rw [List.get?_eq_get hb]
  rfl

theorem pyGet_neg_none (l : List α) (yt : ℤ) (h2 : (l.length : ℤ) < yt) :
    pyGet l (-yt) = none := by
  unfold pyGet
  have h0 : ¬ (0 ≤ -yt) := by omega
  have h3 : ¬ (0 ≤ -yt + l.length) := by omega
  simp [h0, h3]

theorem genGet_write_self (g : List (ℕ × (ℤ × ℤ))) (k : ℕ) (v : ℤ × ℤ) :
    genGet (genWrite g k v) k = some v := by
  simp [genGet, genWrite, List.find?]

theorem genGet_write_other (g : List (ℕ × (ℤ × ℤ))) (k j : ℕ) (v : ℤ × ℤ)
    (h : j ≠ k) : genGet (genWrite g k v) j = genGet g j := by
  simp only [genGet, genWrite, List.find?]
  have hk : (decide (k = j)) = false := by
    simp only [decide_eq_false_iff_not]
    omega
  simp [hk]

theorem PaddyParameter.valid_limits {p : PaddyParameter} (hv : p.valid)
    {lo hi : ℚ} (h : p.limits = some (lo, hi)) :
    lo ≤ hi ∧ lo ≠ hi ∧ lo ≤ p.rangeMin ∧ p.rangeMax ≤ hi := by
  obtain ⟨-, hl, -⟩ := hv
  rw [h] at hl
  obtain ⟨h1, h2, h3⟩ := hl
  push_neg at h1 h3
  exact ⟨h1, h2, h3.1, h3.2⟩

/-! ## Helper lemmas -/

theorem pyGet_nonneg_isSome (l : List α) (i : ℤ) (h0 : 0 ≤ i)
    (h : i < l.length) : (pyGet l i).isSome := by
  unfold pyGet
  simp only [h0, if_true]
  have hb : i.toNat < l.length := by omega
  rw [List.get?_eq_get hb]
  rfl

theorem mapM_some_of_forall {β γ : Type} (f : β → Option γ) :
    ∀ (l : List β), (∀ a ∈ l, (f a).isSome) →
      ∃ res, l.mapM f = some res ∧ res.length = l.length
  | [], _ => ⟨[], rfl, rfl⟩
  | a :: l, h => by
    obtain ⟨b, hb⟩ := Option.isSome_iff_exists.mp (h a (List.mem_cons_self a l))
    obtain ⟨res, hres, hlen⟩ :=
      mapM_some_of_forall f l (fun x hx => h x (List.mem_cons_of_mem a hx))
    refine ⟨b :: res, ?_, by simp [hlen]⟩
    rw [List.mapM_cons, hb, hres]
    rfl

theorem buildPairs_some (fit : List ℚ) (first last : ℤ) (h0 : 0 ≤ first)
    (hl : last < fit.length) :
    ∃ pairs, buildPairs fit first last = some pairs ∧
      (pairs.length : ℤ) = max 0 (last + 1 - first) := by
  unfold buildPairs
  by_cases hle : last + 1 ≤ first
  · simp only [hle, if_true]
    exact ⟨[], rfl, by simp; omega⟩
  · simp only [hle, if_false]
    have hmem : ∀ k ∈ List.range (last + 1 - first).toNat,
        ((pyGet fit (first + (k : ℤ))).map
          (fun v => (first + (k : ℤ), v))).isSome := by
      intro k hk
      rw [List.mem_range] at hk
      obtain ⟨v, hv⟩ := Option.isSome_iff_exists.mp
        (pyGet_nonneg_isSome fit (first + (k : ℤ)) (by omega) (by omega))
      rw [hv]
      rfl
    obtain ⟨res, hres, hlen⟩ := mapM_some_of_forall _ _ hmem
    refine ⟨res, hres, ?_⟩
    rw [hlen, List.length_range]
    omega

theorem roundHE_clamp_bounds (c : ℤ) (hc : 1 ≤ c) :
    1 ≤ roundHalfEven ((c : ℚ) * (75 / 100)) ∧
    roundHalfEven ((c : ℚ) * (75 / 100)) ≤ c := by
  rcases eq_or_lt_of_le hc with h1 | h2
  · subst h1
    have he : ((1 : ℤ) : ℚ) * (75 / 100) = 3/4 := by norm_num
    rw [he]
    have hf : ⌊(3/4 : ℚ)⌋ = 0 := by
      rw [Int.floor_eq_iff]
      norm_num
    have hr : roundHalfEven (3/4 : ℚ) = 1 := by
      rw [roundHalfEven_eq_floor_add_one _ (by rw [hf]; norm_num), hf]
      norm_num
    rw [hr]
    exact ⟨le_refl 1, le_refl 1⟩
  · have hc2 : (2 : ℚ) ≤ (c : ℚ) := by exact_mod_cast h2
    have hu := roundHalfEven_le ((c : ℚ) * (75 / 100))
    have hd := le_roundHalfEven ((c : ℚ) * (75 / 100))
    constructor
    · have hq : (1 : ℚ) ≤ (roundHalfEven ((c : ℚ) * (75 / 100)) : ℚ) := by
        linarith
      exact_mod_cast hq
    · have hq : (roundHalfEven ((c : ℚ) * (75 / 100)) : ℚ) ≤ (c : ℚ) := by
        linarith
      exact_mod_cast hq

theorem roundHalfEven_intCast (n : ℤ) : roundHalfEven (n : ℚ) = n := by
  have h := roundHalfEven_eq_floor (n : ℚ) (by rw [Int.floor_intCast]; norm_num)
  rw [h, Int.floor_intCast]

/-- `sowing_function` only mutates `generation_fitness` (and `yt` in the
generational branch); every other runner field is untouched. -/
theorem sowingFull_frame (st st1 : RunnerState) (s : List (ℤ × ℚ))
    (h : sowingFull st = some (st1, s)) :
    st1.seedParams = st.seedParams ∧ st1.seedFitness = st.seedFitness ∧
    st1.generationData = st.generationData ∧
    st1.paddyCounter = st.paddyCounter ∧ st1.seedCounter = st.seedCounter ∧
    st1.randSeedNumber = st.randSeedNumber ∧ st1.ytPrime = st.ytPrime ∧
    st1.iterations = st.iterations ∧ st1.paddyType = st.paddyType ∧
    st1.Qmax = st.Qmax := by
  unfold sowingFull at h
  split at h
  · exact Option.noConfusion h
  · split at h
    · exact Option.noConfusion h
    · split at h
      · split at h
        · exact Option.noConfusion h
        · injection h with h2
          injection h2 with ha hb
          subst ha
          exact ⟨rfl, rfl, rfl, rfl, rfl, rfl, rfl, rfl, rfl, rfl⟩
      · split at h
        · exact Option.noConfusion h
        · injection h with h2
          injection h2 with ha hb
          subst ha
          exact ⟨rfl, rfl, rfl, rfl, rfl, rfl, rfl, rfl, rfl, rfl⟩

theorem propagateOne_spec (space : List PaddyParameter) (o : Oracle)
    (st st2 : RunnerState) (parentIdx : ℤ)
    (h : propagateOne space o st parentIdx = some st2) :
    st2.seedCounter = st.seedCounter + 1 ∧
    st2.seedParams.length = st.seedParams.length + 1 ∧
    st2.seedFitness.length = st.seedFitness.length + 1 ∧
    st2.generationData = st.generationData ∧
    st2.paddyCounter = st.paddyCounter ∧
    st2.randSeedNumber = st.randSeedNumber ∧
    st2.iterations = st.iterations ∧ st2.ytPrime = st.ytPrime ∧
    st2.yt = st.yt ∧ st2.paddyType = st.paddyType ∧ st2.Qmax = st.Qmax := by
  unfold propagateOne at h
  split at h
  · exact Option.noConfusion h
  · split at h
    · exact Option.noConfusion h
    · split at h
      · exact Option.noConfusion h
      · injection h with h2
        subst h2
        exact ⟨rfl, by simp, by simp, rfl, rfl, rfl, rfl, rfl, rfl, rfl, rfl⟩

theorem foldlM_propagateOne_spec (space : List PaddyParameter) (o : Oracle)
    (idx : ℤ) :
    ∀ (l : List ℕ) (st st2 : RunnerState),
      l.foldlM (fun s _ => propagateOne space o s idx) st = some st2 →
      st2.seedCounter = st.seedCounter + l.length ∧
      st2.seedParams.length = st.seedParams.length + l.length ∧
      st2.seedFitness.length = st.seedFitness.length + l.length ∧
      st2.generationData = st.generationData ∧
      st2.paddyCounter = st.paddyCounter ∧
      st2.randSeedNumber = st.randSeedNumber ∧
      st2.iterations = st.iterations ∧ st2.ytPrime = st.ytPrime ∧
      st2.yt = st.yt ∧ st2.paddyType = st.paddyType ∧ st2.Qmax = st.Qmax
  | [], st, st2, h => by
    simp only [List.foldlM_nil] at h
    injection h with h2
    subst h2
    exact ⟨rfl, rfl, rfl, rfl, rfl, rfl, rfl, rfl, rfl, rfl, rfl⟩
  | a :: l, st, st2, h => by
    rw [List.foldlM_cons] at h
    cases hp : propagateOne space o st idx with
    | none =>
      rw [hp] at h
      exact Option.noConfusion h
    | some s1 =>
      rw [hp] at h
      obtain ⟨m1, m2, m3, m4, m5, m6, m7, m8, m9, m10, m11⟩ :=
        foldlM_propagateOne_spec space o idx l s1 st2 h
      obtain ⟨k1, k2, k3, k4, k5, k6, k7, k8, k9, k10, k11⟩ :=
        propagateOne_spec space o st s1 idx hp
      simp only [List.length_cons]
      refine ⟨by omega, by omega, by omega, by rw [m4, k4], by rw [m5, k5],
        by rw [m6, k6], by rw [m7, k7], by rw [m8, k8], by rw [m9, k9],
        by rw [m10, k10], by rw [m11, k11]⟩

theorem propagateSeed_spec (space : List PaddyParameter) (o : Oracle)
    (entry : ℤ × ℕ) (st st2 : RunnerState)
    (h : propagateSeed space o entry st = some st2) :
    st2.seedCounter = st.seedCounter + entry.2 ∧
    st2.seedParams.length = st.seedParams.length + entry.2 ∧
    st2.seedFitness.length = st.seedFitness.length + entry.2 ∧
    st2.generationData = st.generationData ∧
    st2.paddyCounter = st.paddyCounter ∧
    st2.randSeedNumber = st.randSeedNumber ∧
    st2.iterations = st.iterations ∧ st2.ytPrime = st.ytPrime ∧
    st2.yt = st.yt ∧ st2.paddyType = st.paddyType ∧ st2.Qmax = st.Qmax := by
  have hs := foldlM_propagateOne_spec space o entry.1 (List.range entry.2) st st2 h
  simpa [List.length_range] using hs

theorem foldlM_propagateSeed_spec (space : List PaddyParameter) (o : Oracle) :
    ∀ (S : List (ℤ × ℕ)) (st st2 : RunnerState),
      S.foldlM (fun s e => propagateSeed space o e s) st = some st2 →
      st2.seedCounter = st.seedCounter + (S.map (fun e => e.2)).sum ∧
      st2.seedParams.length = st.seedParams.length + (S.map (fun e => e.2)).sum ∧
      st2.seedFitness.length = st.seedFitness.length + (S.map (fun e => e.2)).sum ∧
      st2.generationData = st.generationData ∧
      st2.paddyCounter = st.paddyCounter ∧
      st2.randSeedNumber = st.randSeedNumber ∧
      st2.iterations = st.iterations ∧ st2.ytPrime = st.ytPrime ∧
      st2.yt = st.yt ∧ st2.paddyType = st.paddyType ∧ st2.Qmax = st.Qmax
  | [], st, st2, h => by
    simp only [List.foldlM_nil] at h
    injection h with h2
    subst h2
    exact ⟨rfl, rfl, rfl, rfl, rfl, rfl, rfl, rfl, rfl, rfl, rfl⟩
  | e :: S, st, st2, h => by
    rw [List.foldlM_cons] at h
    cases hp : propagateSeed space o e st with
    | none =>
      rw [hp] at h
      exact Option.noConfusion h
    | some s1 =>
      rw [hp] at h
      obtain ⟨m1, m2, m3, m4, m5, m6, m7, m8, m9, m10, m11⟩ :=
        foldlM_propagateSeed_spec space o S s1 st2 h
      obtain ⟨k1, k2, k3, k4, k5, k6, k7, k8, k9, k10, k11⟩ :=
        propagateSeed_spec space o e st s1 hp
      simp only [List.map_cons, List.sum_cons]
      refine ⟨by omega, by omega, by omega, by rw [m4, k4], by rw [m5, k5],
        by rw [m6, k6], by rw [m7, k7], by rw [m8, k8], by rw [m9, k9],
        by rw [m10, k10], by rw [m11, k11]⟩

theorem newPropogation_spec (space : List PaddyParameter) (o : Oracle)
    (st : RunnerState) (S : List (ℤ × ℕ)) (stF : RunnerState)
    (h : newPropogation space o st S = some stF) :
    stF.seedCounter = st.seedCounter + (S.map (fun e => e.2)).sum ∧
    stF.seedParams.length = st.seedParams.length + (S.map (fun e => e.2)).sum ∧
    stF.seedFitness.length = st.seedFitness.length + (S.map (fun e => e.2)).sum ∧
    stF.generationData = genWrite st.generationData st.paddyCounter
      ((st.seedCounter : ℤ),
       (st.seedCounter : ℤ) + ((((S.map (fun e => e.2)).sum : ℕ)) : ℤ) - 1) ∧
    stF.paddyCounter = st.paddyCounter ∧
    stF.randSeedNumber = st.randSeedNumber ∧
    stF.iterations = st.iterations ∧ stF.ytPrime = st.ytPrime ∧
    stF.yt = st.yt ∧ stF.paddyType = st.paddyType ∧ stF.Qmax = st.Qmax := by
  unfold newPropogation at h
  cases hf : S.foldlM (fun s e => propagateSeed space o e s) st with
  | none =>
    rw [hf] at h
    exact Option.noConfusion h
  | some stMid =>
    rw [hf] at h
    injection h with h2
    subst h2
    obtain ⟨m1, m2, m3, m4, m5, m6, m7, m8, m9, m10, m11⟩ :=
      foldlM_propagateSeed_spec space o S st stMid hf
    exact ⟨m1, m2, m3, by rw [m4, m5], m5, m6, m7, m8, m9, m10, m11⟩

theorem genGet_write (g : List (ℕ × (ℤ × ℤ))) (k j : ℕ) (v : ℤ × ℤ) :
    genGet (genWrite g k v) j = if j = k then some v else genGet g j := by
  by_cases h : j = k
  · subst h
    rw [if_pos rfl]
    exact genGet_write_self g j v
  · rw [if_neg h]
    exact genGet_write_other g k j v h

theorem genGet_nil (j : ℕ) : genGet [] j = none := rfl

theorem LoopInv_congr (st st1 : RunnerState)
    (hp : st1.seedParams = st.seedParams)
    (hf : st1.seedFitness = st.seedFitness)
    (hg : st1.generationData = st.generationData)
    (hc : st1.paddyCounter = st.paddyCounter)
    (hs : st1.seedCounter = st.seedCounter)
    (hr : st1.randSeedNumber = st.randSeedNumber)
    (h : LoopInv st) : LoopInv st1 := by
  unfold LoopInv at h ⊢
  rw [hp, hf, hg, hc, hs, hr]
  exact h

theorem mkRunner_ok (rsn yt Qmax iterations : ℤ) (r : ℚ) (pt : PaddyType)
    (st0 : RunnerState)
    (h : mkRunner rsn yt Qmax iterations r pt = Except.ok st0) :
    st0.seedCounter = 1 ∧ st0.seedParams = [] ∧ st0.seedFitness = [] ∧
    st0.paddyCounter = 0 ∧ st0.generationData = [] ∧
    st0.randSeedNumber = rsn.toNat ∧ 4 ≤ rsn ∧ 1 ≤ yt ∧
    st0.ytPrime = yt ∧
    st0.yt = (if yt > rsn then roundHalfEven ((rsn : ℚ) * (75 / 100))
              else yt) := by
  unfold mkRunner at h
  by_cases h1 : (rsn < 1 ∨ yt < 1 ∨ Qmax < 1 ∨ iterations < 1)
  · rw [if_pos h1] at h
    exact Except.noConfusion h
  · rw [if_neg h1] at h
    by_cases h2 : r < 0
    · rw [if_pos h2] at h
      exact Except.noConfusion h
    · rw [if_neg h2] at h
      by_cases h3 : rsn < 4
      · rw [if_pos h3] at h
        exact Except.noConfusion h
      · rw [if_neg h3] at h
        injection h with h5
        subst h5
        push_neg at h1
        exact ⟨rfl, rfl, rfl, rfl, rfl, rfl, by omega, by omega, rfl, rfl⟩

theorem randomStep_LoopInv (space : List PaddyParameter) (o : Oracle)
    (rsn yt Qmax iterations : ℤ) (r : ℚ) (pt : PaddyType) (st0 : RunnerState)
    (h : mkRunner rsn yt Qmax iterations r pt = Except.ok st0) :
    LoopInv (randomStep space o st0) := by
  obtain ⟨h1, h2, h3, h4, h5, h6, h7, h8, h9, h10⟩ :=
    mkRunner_ok rsn yt Qmax iterations r pt st0 h
  unfold LoopInv randomStep randomPropogation
  simp only [h2, h3, h4, h5]
  refine ⟨?_, ?_, ?_, ?_, ?_, ?_⟩
  · simp
  · simp
  · exact ⟨0, by rw [genGet_write, if_pos rfl]⟩
  · intro k hk
    rw [genGet_write, if_neg (by omega)]
    rfl
  · intro n a b c d hn hn1
    by_cases hn0 : n = 0
    · subst hn0
      rw [genGet_write, if_neg (by omega)] at hn1
      exact Option.noConfusion hn1
    · rw [genGet_write, if_neg hn0] at hn
      exact Option.noConfusion hn
  · rw [genGet_write, if_pos rfl]

theorem runnerStep_next_elim (space : List PaddyParameter) (o : Oracle)
    (st st4 : RunnerState) (h : runnerStep space o st = StepOut.next st4) :
    ∃ st1 s, sowingFull st = some (st1, s) ∧ s.length ≠ 0 ∧
      newPropogation space o
        { st1 with yt := st1.ytPrime, paddyCounter := st1.paddyCounter + 1 }
        ((s.map (fun e => e.1)).zip
          (o.pollin { st1 with yt := st1.ytPrime } s)) = some st4 := by
  unfold runnerStep at h
  split at h
  · exact StepOut.noConfusion h
  next st1 s heq =>
    split at h
    · exact StepOut.noConfusion h
    next hl =>
      dsimp only at h
      split at h
      · exact StepOut.noConfusion h
      next st4b hnp =>
        injection h with h5
        subst h5
        exact ⟨st1, s, heq, hl, hnp⟩

theorem runnerStep_conv_elim (space : List PaddyParameter) (o : Oracle)
    (st st2 : RunnerState) (h : runnerStep space o st = StepOut.conv st2) :
    ∃ s, sowingFull st = some (st2, s) ∧ s.length = 0 := by
  unfold runnerStep at h
  split at h
  · exact StepOut.noConfusion h
  next st1 s heq =>
    split at h
    next hl =>
      injection h with h5
      subst h5
      exact ⟨s, heq, hl⟩
    next hl =>
      dsimp only at h
      split at h
      · exact StepOut.noConfusion h
      next st4b hnp => exact StepOut.noConfusion h

theorem runnerStep_next_LoopInv (space : List PaddyParameter) (o : Oracle)
    (st st4 : RunnerState) (hInv : LoopInv st)
    (h : runnerStep space o st = StepOut.next st4) : LoopInv st4 := by
  obtain ⟨st1, s, hs, hl, hnp⟩ := runnerStep_next_elim space o st st4 h
  obtain ⟨f1, f2, f3, f4, f5, f6, f7, f8, f9, f10⟩ := sowingFull_frame st st1 s hs
  obtain ⟨n1, n2, n3, n4, n5, n6, n7, n8, n9, n10, n11⟩ :=
    newPropogation_spec space o _ _ st4 hnp
  set Q := ((((s.map (fun e => e.1)).zip
    (o.pollin { st1 with yt := st1.ytPrime } s)).map (fun e => e.2)).sum : ℕ)
    with hQdef
  have n1' : st4.seedCounter = st1.seedCounter + Q := n1
  have n2' : st4.seedParams.length = st1.seedParams.length + Q := n2
  have n3' : st4.seedFitness.length = st1.seedFitness.length + Q := n3
  have n4' : st4.generationData = genWrite st1.generationData
      (st1.paddyCounter + 1)
      ((st1.seedCounter : ℤ), (st1.seedCounter : ℤ) + (Q : ℤ) - 1) := n4
  have n5' : st4.paddyCounter = st1.paddyCounter + 1 := n5
  have n6' : st4.randSeedNumber = st1.randSeedNumber := n6
  obtain ⟨hI1, hI2, ⟨fst0, hI3⟩, hI4, hI5, hI6⟩ := hInv
  refine ⟨?_, ?_, ?_, ?_, ?_, ?_⟩
  · rw [n1', n2', f5, f1]
    omega
  · rw [n1', n3', f5, f2]
    omega
  · refine ⟨(st1.seedCounter : ℤ), ?_⟩
    rw [n4', n5', genGet_write, if_pos rfl, n1']
    simp only [Option.some.injEq, Prod.mk.injEq, eq_self_iff_true, true_and]
    push_cast
    ring
  · intro k hk
    rw [n5'] at hk
    rw [n4', genGet_write, if_neg (by omega), f3]
    exact hI4 k (by omega)
  · intro n a b c d hn hn1
    rw [n4', genGet_write] at hn hn1
    by_cases hcase1 : n = st1.paddyCounter + 1
    · rw [if_neg (by omega)] at hn1
      rw [f3] at hn1
      have hnone := hI4 (n + 1) (by rw [← f4]; omega)
      rw [hnone] at hn1
      exact Option.noConfusion hn1
    · rw [if_neg hcase1] at hn
      by_cases hcase2 : n + 1 = st1.paddyCounter + 1
      · rw [if_pos hcase2] at hn1
        injection hn1 with hn1b
        have hc : (st1.seedCounter : ℤ) = c := congrArg Prod.fst hn1b
        have hn2 : genGet st.generationData n = some (a, b) := by
          rw [← f3]
          exact hn
        have hnpc : n = st.paddyCounter := by rw [← f4]; omega
        rw [hnpc, hI3] at hn2
        injection hn2 with hn2b
        have hb : (st.seedCounter : ℤ) - 1 = b := congrArg Prod.snd hn2b
        rw [← hc, ← hb, f5]
        ring
      · rw [if_neg hcase2] at hn1
        rw [f3] at hn hn1
        exact hI5 n a b c d hn hn1
  · rw [n4', genGet_write, if_neg (by omega), f3, n6', f6]
    exact hI6

theorem runnerStep_conv_LoopInv (space : List PaddyParameter) (o : Oracle)
    (st st2 : RunnerState) (hInv : LoopInv st)
    (h : runnerStep space o st = StepOut.conv st2) : LoopInv st2 := by
  obtain ⟨s, hs, -⟩ := runnerStep_conv_elim space o st st2 h
  obtain ⟨f1, f2, f3, f4, f5, f6, -, -, -, -⟩ := sowingFull_frame st st2 s hs
  exact LoopInv_congr st st2 f1 f2 f3 f4 f5 f6 hInv

theorem reached_LoopInv (space : List PaddyParameter) (o : Oracle)
    (st : RunnerState) (h : Reached space o st) : LoopInv st := by
  induction h with
  | start rsn yt Qmax iterations r pt st0 h0 =>
    exact randomStep_LoopInv space o rsn yt Qmax iterations r pt st0 h0
  | next st st2 hR hStep ih =>
    exact runnerStep_next_LoopInv space o st st2 ih hStep
  | conv st st2 hR hStep ih =>
    exact runnerStep_conv_LoopInv space o st st2 ih hStep

/-! ## Claim C4: recovery order -/

/-- C4 counterexample: when the primary file is missing but a fully valid
backup exists, `paddy_recover` raises `PFA_PATH_ERROR` (a
`PaddyRecoveryError`) without ever consulting the backup — refuting "it
raises the unrecoverable recovery error only when both the primary and the
backup fail". -/
theorem claim_c4_counterexample :
    markerOk pfGood = true ∧ pfGood.loadResult = some 7 ∧
    paddyRecover none (some pfGood) = RecoveryOutcome.recErrPath := by
  refine ⟨by decide, rfl, rfl⟩

/-- C4 (amended): when the primary file exists, recovery accepts it
exactly when it passes the leading-marker check and `pickle.load`
succeeds; if the primary exists but fails the marker check, it falls back
to the backup under the same check, raising the unrecoverable
corrupt-pickles error precisely when the backup also fails the check (and
the missing-backup error when no backup exists); a missing primary raises
the path error without consulting the backup, and a `pickle.load`
exception after a passed marker check propagates without fallback. -/
theorem claim_c4_recovery_marker_fallback {β : Type} (f g : PickleFile β)
    (r : β) (backup : Option (PickleFile β)) :
    (markerOk f = true → f.loadResult = some r →
      paddyRecover (some f) backup = RecoveryOutcome.ok r) ∧
    (markerOk f = true → f.loadResult = none →
      paddyRecover (some f) backup = RecoveryOutcome.loadExn) ∧
    (markerOk f = false → markerOk g = true → g.loadResult = some r →
      paddyRecover (some f) (some g) = RecoveryOutcome.ok r) ∧
    (markerOk f = false → markerOk g = false →
      paddyRecover (some f) (some g) = RecoveryOutcome.recErrBadPickles) ∧
    (markerOk f = false →
      paddyRecover (some f) none = RecoveryOutcome.recErrNullBackup) ∧
    paddyRecover none backup = RecoveryOutcome.recErrPath := by
  unfold paddyRecover
  refine ⟨?_, ?_, ?_, ?_, ?_, rfl⟩
  · intro h1 h2
    simp [h1, h2]
  · intro h1 h2
    simp [h1, h2]
  · intro h1 h2 h3
    simp [h1, h2, h3]
  · intro h1 h2
    simp [h1, h2]
  · intro h1
    simp [h1]

/-- Witness for C4: a marker-corrupted primary with a valid backup
recovers through the backup, and two marker-corrupted files raise the
corrupt-pickles error. -/
theorem claim_c4_witness :
    paddyRecover (some pfBad) (some pfGood) = RecoveryOutcome.ok 7 ∧
    paddyRecover (some pfBad) (some pfBad) =
      RecoveryOutcome.recErrBadPickles :=
  ⟨(claim_c4_recovery_marker_fallback pfBad pfGood 7 (some pfGood)).2.2.1
      (by decide) (by decide) rfl,
   (claim_c4_recovery_marker_fallback pfBad pfBad 7 (some pfBad)).2.2.2.1
      (by decide) (by decide)⟩

/-- C5 (code bug): the constructor's guard is `rand_seed_number < 4`, so
`rand_seed_number = 4` constructs successfully — although the claim, the
spec and the source's own error text (`RANDOM_SEED_ERROR = 'paddy requires
more than four random seeds during initiation'`) all say four seeds must
raise.  The error fires only for `rand_seed_number ≤ 3`;
`rand_seed_number = 5` succeeds as claimed. -/
theorem claim_c5_random_seed_check_off_by_one :
    mkRunner 4 2 5 5 1 PaddyType.generational = Except.ok runner4ok ∧
    mkRunner 3 2 5 5 1 PaddyType.generational =
      Except.error PaddyErr.randomSeed ∧
    mkRunner 5 2 5 5 1 PaddyType.generational = Except.ok runner5ok := by
  refine ⟨by with_unfolding_all rfl, by with_unfolding_all rfl,
    by with_unfolding_all rfl⟩

/-! ## Claim C7: generation record contiguity -/

/-- C7: in every reachable runner state, generation 0 covers ledger
indices `0 .. rand_seed_number - 1`, and any two consecutive closed
generation records are contiguous and non-overlapping:
`last_index(n) + 1 = first_index(n+1)`. -/
theorem claim_c7_generation_records_contiguous
    (space : List PaddyParameter) (o : Oracle) (st : RunnerState)
    (h : Reached space o st) :
    genGet st.generationData 0 = some (0, (st.randSeedNumber : ℤ) - 1) ∧
    (∀ n a b c d, genGet st.generationData n = some (a, b) →
      genGet st.generationData (n + 1) = some (c, d) → b + 1 = c) := by
  obtain ⟨-, -, -, -, h5, h6⟩ := reached_LoopInv space o st h
  exact ⟨h6, h5⟩

/-- Witness for C7 at the concrete two-generation run `wSt → wSt4`. -/
theorem claim_c7_witness :
    genGet wSt4.generationData 0 = some (0, (wSt4.randSeedNumber : ℤ) - 1) :=
  (claim_c7_generation_records_contiguous wSpace wOracle wSt4
    (Reached.next wSt wSt4
      (Reached.start 5 2 1 3 1 PaddyType.population wRunner0
        (by with_unfolding_all rfl))
      (by with_unfolding_all rfl))).1

/-! ## Claim C10: seed counter matches ledger lengths -/

/-- C10: in every reachable runner state — after random initialisation
and after every completed propagation step — `seed_counter` equals the
length of both ledger lists, so the next appended seed receives index
`seed_counter` and ledger indices are dense from 0. -/
theorem claim_c10_seed_counter_matches_ledger
    (space : List PaddyParameter) (o : Oracle) (st : RunnerState)
    (h : Reached space o st) :
    st.seedCounter = st.seedParams.length ∧
    st.seedCounter = st.seedFitness.length := by
  obtain ⟨h1, h2, -, -, -, -⟩ := reached_LoopInv space o st h
  exact ⟨h1, h2⟩

/-- Witness for C10 after one full iteration on the concrete run. -/
theorem claim_c10_witness :
    wSt4.seedCounter = wSt4.seedParams.length ∧
    wSt4.seedCounter = wSt4.seedFitness.length :=
  claim_c10_seed_counter_matches_ledger wSpace wOracle wSt4
    (Reached.next wSt wSt4
      (Reached.start 5 2 1 3 1 PaddyType.population wRunner0
        (by with_unfolding_all rfl))
      (by with_unfolding_all rfl))

/-! ## Claim C9: empty selection record means convergence, no mutation -/

/-- C9: if sowing produces an empty selection record while the loop is
running, `run_paddy` prints "paddy has converged" and returns: the loop
result is the converged state, whose ledger (`seed_params`,
`seed_fitness`), generation records (`generation_data`) and iteration
counter (`paddy_counter`) are exactly those of the pre-sowing state — no
offspring are generated or evaluated and nothing is mutated afterwards. -/
theorem claim_c9_empty_selection_converges
    (space : List PaddyParameter) (o : Oracle) (st st1 : RunnerState)
    (fuel : ℕ) (hiter : st.paddyCounter < st.iterations)
    (hsow : sowingFull st = some (st1, [])) :
    runLoop space o (fuel + 1) st = RunResult.convergedR st1 ∧
    st1.seedParams = st.seedParams ∧ st1.seedFitness = st.seedFitness ∧
    st1.generationData = st.generationData ∧
    st1.paddyCounter = st.paddyCounter := by
  have hstep : runnerStep space o st = StepOut.conv st1 := by
    unfold runnerStep
    rw [hsow]
    rfl
  obtain ⟨f1, f2, f3, f4, -, -, -, -, -, -⟩ := sowingFull_frame st st1 [] hsow
  refine ⟨?_, f1, f2, f3, f4⟩
  unfold runLoop
  rw [if_pos hiter, hstep]

/-- Witness for C9: the constant-fitness run converges in iteration 1
with ledger, generation data and counter untouched. -/
theorem claim_c9_witness :
    runLoop wSpace cvOracle 1 cvState = RunResult.convergedR cvConv ∧
    cvConv.seedParams = cvState.seedParams ∧
    cvConv.generationData = cvState.generationData ∧
    cvConv.paddyCounter = cvState.paddyCounter := by
  obtain ⟨h1, h2, h3, h4, h5⟩ :=
    claim_c9_empty_selection_converges wSpace cvOracle cvState cvConv 0
      (by with_unfolding_all decide) (by with_unfolding_all rfl)
  exact ⟨h1, h2, h4, h5⟩

/-! ## Claim C1: degenerate all-equal top segment empties the selection -/

/-- C1: in both ranking modes, when the threshold fitness `yt_val` equals
the scope maximum `y_max`, every loop entry is guarded by
`yt_val != y_max` and is therefore omitted, so the selection record `s`
is empty; and whenever sowing yields an empty `s`, the running loop
signals convergence with no further mutation
(`run_paddy` lines 731-734). -/
theorem claim_c1_degenerate_tie_empties_selection
    (st : RunnerState) (out : SowOut) :
    (∀ first last, sowGenerational st first last = some out →
      out.ytVal = out.yMax → out.s = []) ∧
    (sowPopulation st = some out → out.ytVal = out.yMax → out.s = []) ∧
    (∀ space o st1 s, sowingFull st = some (st1, s) → s = [] →
      runnerStep space o st = StepOut.conv st1) := by
  refine ⟨?_, ?_, ?_⟩
  · intro first last h heq
    unfold sowGenerational at h
    dsimp only at h
    split at h
    · exact Option.noConfusion h
    next genClone hbp =>
      split at h
      · exact Option.noConfusion h
      next lastPair hlast =>
        split at h
        · exact Option.noConfusion h
        next ytPair hytp =>
          by_cases hcond : ytPair.2 = lastPair.2
          · rw [if_pos hcond] at h
            injection h with h2
            subst h2
            rfl
          · rw [if_neg hcond] at h
            split at h
            · exact Option.noConfusion h
            next sres hres =>
              injection h with h2
              subst h2
              exact absurd heq hcond
  · intro h heq
    unfold sowPopulation at h
    dsimp only at h
    split at h
    · exact Option.noConfusion h
    next yMax hmax =>
      split at h
      · exact Option.noConfusion h
      next ytVal hytv =>
        by_cases hcond : ytVal = yMax
        · rw [if_pos hcond] at h
          injection h with h2
          subst h2
          rfl
        · rw [if_neg hcond] at h
          split at h
          · exact Option.noConfusion h
          next sres hres =>
            injection h with h2
            subst h2
            exact absurd heq hcond
  · intro space o st1 s hsow hnil
    subst hnil
    unfold runnerStep
    rw [hsow]
    rfl

/-- Witness for C1: the all-equal population yields `yt_val = y_max = 0`,
the empty selection, and the convergence transition. -/
theorem claim_c1_witness :
    (SowOut.mk [] 0 0 2).s = [] ∧
    runnerStep wSpace cvOracle cvState = StepOut.conv cvConv :=
  ⟨(claim_c1_degenerate_tie_empties_selection cvState ⟨[], 0, 0, 2⟩).2.1
      (by with_unfolding_all rfl) rfl,
   (claim_c1_degenerate_tie_empties_selection cvState ⟨[], 0, 0, 2⟩).2.2
      wSpace cvOracle cvConv [] (by with_unfolding_all rfl) rfl⟩

theorem claim_c2_counterexample :
    c2State.paddyType = PaddyType.population ∧
    (c2State.seedFitness.length : ℤ) < c2State.yt ∧
    sowPopulation c2State = none ∧ sowingFull c2State = none := by
  refine ⟨rfl, by decide, by with_unfolding_all rfl,
    by with_unfolding_all rfl⟩

/-- C2 (amended): the `yt := round(0.75 × count)` boundary correction is
applied (i) at construction, when `yt > rand_seed_number`, and (ii) during
sowing only in the generational branch, where it guarantees selection
succeeds; in the population branch no reset occurs and `yt` larger than
the population size makes sowing fail with an `IndexError`. -/
theorem claim_c2_yt_reset_generational_only
    (rsn yt Qmax iterations : ℤ) (r : ℚ) (pt : PaddyType)
    (st0 : RunnerState)
    (hmk : mkRunner rsn yt Qmax iterations r pt = Except.ok st0)
    (st : RunnerState) (first last : ℤ) :
    (yt > rsn → st0.yt = roundHalfEven ((rsn : ℚ) * (75 / 100))) ∧
    (0 ≤ first → first ≤ last → last < st.seedFitness.length →
      1 ≤ st.yt →
      ∃ out, sowGenerational st first last = some out ∧
        out.ytNew = (if st.yt > last + 1 - first then
          roundHalfEven (((last + 1 - first : ℤ) : ℚ) * (75 / 100))
          else st.yt)) ∧
    ((st.seedFitness.length : ℤ) < st.yt → sowPopulation st = none) := by
  refine ⟨?_, ?_, ?_⟩
  · intro hgt
    obtain ⟨-, -, -, -, -, -, -, -, -, h10⟩ :=
      mkRunner_ok rsn yt Qmax iterations r pt st0 hmk
    rw [h10, if_pos hgt]
  · intro h0 h1 h2 h4
    have hcount1 : (1 : ℤ) ≤ last + 1 - first := by omega
    have hytN : 1 ≤ (if st.yt > last + 1 - first then
        roundHalfEven (((last + 1 - first : ℤ) : ℚ) * (75 / 100))
        else st.yt) ∧
        (if st.yt > last + 1 - first then
          roundHalfEven (((last + 1 - first : ℤ) : ℚ) * (75 / 100))
          else st.yt) ≤ last + 1 - first := by
      by_cases hgt : st.yt > last + 1 - first
      · rw [if_pos hgt]
        exact roundHE_clamp_bounds (last + 1 - first) hcount1
      · rw [if_neg hgt]
        omega
    unfold sowGenerational
    dsimp only
    generalize hg : (if st.yt > last + 1 - first then
      roundHalfEven (((last + 1 - first : ℤ) : ℚ) * (75 / 100))
      else st.yt) = ytN at hytN ⊢
    obtain ⟨hyt1, hyt2⟩ := hytN
    obtain ⟨pairs, hbp, hplen⟩ := buildPairs_some st.seedFitness first last h0 h2
    have hplen2 : (pairs.length : ℤ) = last + 1 - first := by
      rw [hplen]
      omega
    simp only [hbp]
    have hslen : ((pairs.insertionSort (fun a b => a.2 ≤ b.2)).length : ℤ) =
        last + 1 - first := by
      rw [List.length_insertionSort]
      exact hplen2
    have hsne : pairs.insertionSort (fun a b => a.2 ≤ b.2) ≠ [] := by
      intro hnil
      rw [hnil] at hslen
      simp at hslen
      omega
    obtain ⟨lp, hlp⟩ :=
      Option.isSome_iff_exists.mp (List.getLast?_isSome.mpr hsne)
    simp only [hlp]
    obtain ⟨yp, hypg⟩ := Option.isSome_iff_exists.mp
      (pyGet_neg_isSome (pairs.insertionSort (fun a b => a.2 ≤ b.2)) ytN
        hyt1 (by omega))
    simp only [hypg]
    by_cases heq : yp.2 = lp.2
    · simp only [if_pos heq]
      exact ⟨⟨[], lp.2, yp.2, ytN⟩, rfl, rfl⟩
    · simp only [if_neg heq]
      have hloop : ∀ k ∈ List.range ytN.toNat,
          ((pyGet (pairs.insertionSort (fun a b => a.2 ≤ b.2))
            (-((k : ℤ) + 1))).map (fun p =>
              (p.1, (st.Qmax : ℚ) * ((p.2 - yp.2) / (lp.2 - yp.2))))).isSome := by
        intro k hk
        rw [List.mem_range] at hk
        obtain ⟨v, hv⟩ := Option.isSome_iff_exists.mp
          (pyGet_neg_isSome (pairs.insertionSort (fun a b => a.2 ≤ b.2))
            ((k : ℤ) + 1) (by omega) (by omega))
        rw [hv]
        rfl
      obtain ⟨res, hres, -⟩ := mapM_some_of_forall _ _ hloop
      simp only [hres]
      exact ⟨⟨res, lp.2, yp.2, ytN⟩, rfl, rfl⟩
  · intro hlen
    unfold sowPopulation
    dsimp only
    cases hm : listMax st.seedFitness with
    | none => rfl
    | some yMax =>
      have hnone : pyGet (st.seedFitness.insertionSort (fun a b => a ≤ b))
          (-st.yt) = none := by
        apply pyGet_neg_none
        rw [List.length_insertionSort]
        exact hlen
      simp only [hnone]

/-- Witness for C2: the construction reset at `yt = 10,
rand_seed_number = 5` (the spec's scenario, yielding 4), the in-sowing
generational reset succeeding, and the population-mode failure. -/
theorem claim_c2_witness :
    runner510.yt = roundHalfEven ((5 : ℚ) * (75 / 100)) ∧
    (sowGenerational gClampState 0 2).isSome = true ∧
    sowPopulation c2State = none := by
  refine ⟨?_, ?_, ?_⟩
  · exact (claim_c2_yt_reset_generational_only 5 10 1 3 1
      PaddyType.generational runner510 (by with_unfolding_all rfl)
      c2State 0 0).1 (by decide)
  · obtain ⟨out, h1, -⟩ := (claim_c2_yt_reset_generational_only 5 10 1 3 1
      PaddyType.generational runner510 (by with_unfolding_all rfl)
      gClampState 0 2).2.1 (by decide) (by decide) (by decide) (by decide)
    rw [h1]
    rfl
  · exact (claim_c2_yt_reset_generational_only 5 10 1 3 1
      PaddyType.generational runner510 (by with_unfolding_all rfl)
      c2State 0 0).2.2 (by decide)

/-- C3 counterexample: for the valid configuration
`range = [0, 1, 0.3]`, `limits = [0, 1]`, the `random.choice` domain
`np.arange(0, 1.3, 0.3)` contains `1.2`, so `random_init` can return a
value outside `[range.min, range.max]` and outside `[lo, hi]` — refuting
the claim for this configuration. -/
theorem claim_c3_counterexample :
    c3Param.valid ∧ (0 : ℚ) < c3Param.rangeStep ∧
    (12/10 : ℚ) ∈ c3Param.randomInitChoices ∧
    (c3Param.randomInit (12/10)).1 = 12/10 ∧
    c3Param.limits = some (0, 1) ∧
    ¬ ((c3Param.randomInit (12/10)).1 ≤ c3Param.rangeMax) ∧
    ¬ ((c3Param.randomInit (12/10)).1 ≤ 1) := by
  with_unfolding_all decide

/-- C3 (amended): for every valid spec with positive step, the drawn
value lies in the half-open interval
`[range.min, range.max + step)`; when `step` exactly divides
`range.max − range.min` the value lies within `[range.min, range.max]`
and hence within `[lo, hi]` whenever limits are configured, and — for
`kind = integer` with integral `range.min` and `step` — the same bounds
hold for the returned rounded value. -/
theorem claim_c3_random_init_bounds (p : PaddyParameter) (hv : p.valid)
    (hstep : 0 < p.rangeStep) (choice : ℚ)
    (hc : choice ∈ p.randomInitChoices) :
    (p.rangeMin ≤ choice ∧ choice < p.rangeMax + p.rangeStep) ∧
    (p.paramType = ParamType.continuous → (p.randomInit choice).1 = choice) ∧
    (∀ m : ℕ, p.rangeMax - p.rangeMin = (m : ℚ) * p.rangeStep →
      choice ≤ p.rangeMax ∧
      (∀ lo hi, p.limits = some (lo, hi) → lo ≤ choice ∧ choice ≤ hi) ∧
      (∀ a c2 : ℤ, p.rangeMin = (a : ℚ) → p.rangeStep = (c2 : ℚ) →
        p.rangeMin ≤ (p.randomInit choice).1 ∧
        (p.randomInit choice).1 ≤ p.rangeMax ∧
        (∀ lo hi, p.limits = some (lo, hi) →
          lo ≤ (p.randomInit choice).1 ∧
          (p.randomInit choice).1 ≤ hi))) := by
  unfold PaddyParameter.randomInitChoices arange arangeLen at hc
  rw [List.mem_map] at hc
  obtain ⟨k, hk, hck⟩ := hc
  rw [List.mem_range] at hk
  subst hck
  have hkz : (k : ℤ) <
      ⌈(p.rangeMax + p.rangeStep - p.rangeMin) / p.rangeStep⌉ := by
    omega
  have hkq : (k : ℚ) <
      (p.rangeMax + p.rangeStep - p.rangeMin) / p.rangeStep := by
    have hc1 :
        ((⌈(p.rangeMax + p.rangeStep - p.rangeMin) / p.rangeStep⌉ : ℤ) : ℚ) <
        (p.rangeMax + p.rangeStep - p.rangeMin) / p.rangeStep + 1 :=
      Int.ceil_lt_add_one _
    have hk1 : (k : ℚ) + 1 ≤
        ((⌈(p.rangeMax + p.rangeStep - p.rangeMin) / p.rangeStep⌉ : ℤ) : ℚ) := by
      exact_mod_cast hkz
    linarith
  have hupper : p.rangeMin + (k : ℚ) * p.rangeStep <
      p.rangeMax + p.rangeStep := by
    have hm1 : (k : ℚ) * p.rangeStep <
        p.rangeMax + p.rangeStep - p.rangeMin := (lt_div_iff₀ hstep).mp hkq
    linarith
  have hlower : p.rangeMin ≤ p.rangeMin + (k : ℚ) * p.rangeStep := by
    have hm2 : 0 ≤ (k : ℚ) * p.rangeStep :=
      mul_nonneg (Nat.cast_nonneg k) hstep.le
    linarith
  refine ⟨⟨hlower, hupper⟩, ?_, ?_⟩
  · intro hpt
    simp [PaddyParameter.randomInit, hpt]
  · intro m hm
    have hx : (p.rangeMax + p.rangeStep - p.rangeMin) / p.rangeStep =
        (m : ℚ) + 1 := by
      rw [div_eq_iff (ne_of_gt hstep)]
      ring_nf
      linarith [hm]
    have hceil : ⌈(p.rangeMax + p.rangeStep - p.rangeMin) / p.rangeStep⌉ =
        (m : ℤ) + 1 := by
      rw [hx, show ((m : ℚ) + 1) = (((m : ℤ) + 1 : ℤ) : ℚ) by push_cast; ring]
      exact Int.ceil_intCast _
    have hkm : k ≤ m := by
      rw [hceil] at hk
      omega
    have hub : p.rangeMin + (k : ℚ) * p.rangeStep ≤ p.rangeMax := by
      have hm3 : (k : ℚ) * p.rangeStep ≤ (m : ℚ) * p.rangeStep := by
        apply mul_le_mul_of_nonneg_right _ hstep.le
        exact_mod_cast hkm
      linarith [hm]
    refine ⟨hub, ?_, ?_⟩
    · intro lo hi hlim
      obtain ⟨-, -, hl1, hl2⟩ := PaddyParameter.valid_limits hv hlim
      exact ⟨le_trans hl1 hlower, le_trans hub hl2⟩
    · intro a c2 ha hc2
      have hz : p.rangeMin + (k : ℚ) * p.rangeStep =
          ((a + k * c2 : ℤ) : ℚ) := by
        rw [ha, hc2]
        push_cast
        ring
      have hri : (p.randomInit (p.rangeMin + (k : ℚ) * p.rangeStep)).1 =
          p.rangeMin + (k : ℚ) * p.rangeStep := by
        cases hpt : p.paramType with
        | continuous => simp [PaddyParameter.randomInit, hpt]
        | integer =>
          simp only [PaddyParameter.randomInit, hpt]
          rw [hz, roundHalfEven_intCast]
      rw [hri]
      refine ⟨hlower, hub, ?_⟩
      intro lo hi hlim
      obtain ⟨-, -, hl1, hl2⟩ := PaddyParameter.valid_limits hv hlim
      exact ⟨le_trans hl1 hlower, le_trans hub hl2⟩

/-- Witness for C3 at `range = [0, 2, 1]`, `limits = [0, 2]`,
`kind = integer`, drawn value 2. -/
theorem claim_c3_witness :
    (c3wParam.rangeMin ≤ 2 ∧ (2 : ℚ) < c3wParam.rangeMax + c3wParam.rangeStep) ∧
    (c3wParam.randomInit 2).1 ≤ c3wParam.rangeMax ∧
    (0 : ℚ) ≤ (c3wParam.randomInit 2).1 ∧ (c3wParam.randomInit 2).1 ≤ 2 := by
  obtain ⟨hp1, -, hp3⟩ := claim_c3_random_init_bounds c3wParam
    (by with_unfolding_all decide) (by norm_num [c3wParam]) 2
    (by with_unfolding_all decide)
  obtain ⟨hub, hlim, hint⟩ := hp3 2 (by norm_num [c3wParam])
  obtain ⟨hi1, hi2, hi3⟩ := hint 0 1 (by norm_num [c3wParam]) (by norm_num [c3wParam])
  exact ⟨hp1, hi2, (hi3 0 2 rfl).1, (hi3 0 2 rfl).2⟩

/-! ## Claim C6: `new_seed_init` bound enforcement -/

theorem roundHE_bounds_in (v lo hi : ℚ) (h1 : lo ≤ v) (h2 : v ≤ hi) :
    lo - 1/2 ≤ ((roundHalfEven v : ℤ) : ℚ) ∧
    ((roundHalfEven v : ℤ) : ℚ) ≤ hi + 1/2 ∧
    (∀ li hj : ℤ, lo = (li : ℚ) → hi = (hj : ℚ) →
      lo ≤ ((roundHalfEven v : ℤ) : ℚ) ∧
      ((roundHalfEven v : ℤ) : ℚ) ≤ hi) := by
  have hu := roundHalfEven_le v
  have hd := le_roundHalfEven v
  refine ⟨by linarith, by linarith, ?_⟩
  intro li hj hlo hhi
  constructor
  · have hq : ((li : ℤ) : ℚ) - 1 < (roundHalfEven v : ℚ) := by
      rw [← hlo]
      linarith
    have hz : li - 1 < roundHalfEven v := by exact_mod_cast hq
    rw [hlo]
    exact_mod_cast (by omega : li ≤ roundHalfEven v)
  · have hq : (roundHalfEven v : ℚ) < ((hj : ℤ) : ℚ) + 1 := by
      rw [← hhi]
      linarith
    have hz : roundHalfEven v < hj + 1 := by exact_mod_cast hq
    rw [hhi]
    exact_mod_cast (by omega : roundHalfEven v ≤ hj)

/-- C6 counterexample: for the valid spec `range = [1, 2, 1]`,
`limits = [0.4, 2]`, `kind = integer`, parent value `1 ∈ [1, 2]` and
normal draw `0`: the draw is clipped to `0.4` but then rounded to `0`,
which lies outside `[lo, hi]` — refuting "the value returned by perturb
lies within `[lo, hi]` … when kind = integer (after rounding)". -/
theorem claim_c6_counterexample :
    c6Param.valid ∧ c6Param.limits = some (2/5, 2) ∧
    c6Param.rangeMin ≤ 1 ∧ (1 : ℚ) ≤ c6Param.rangeMax ∧
    c6Param.newSeedInit (1, 0) 0 0 = some (0, 0) ∧
    ¬ ((2/5 : ℚ) ≤ (0 : ℚ)) := by
  with_unfolding_all decide

/-- C6 (amended): with limits configured, for every parent and every
sampled noise the clipped value lies in `[lo, hi]` before integer
rounding, so the returned value lies in `[lo, hi]` for
`kind = continuous`; for `kind = integer` it lies within
`[lo − 1/2, hi + 1/2]` in general, and within `[lo, hi]` whenever the
limit endpoints are integers. -/
theorem claim_c6_perturb_clipped (p : PaddyParameter) (lo hi : ℚ)
    (hlim : p.limits = some (lo, hi)) (hle : lo ≤ hi)
    (parent : ℚ × ℚ) (draw0 draw1 : ℚ) :
    ∃ b, p.newSeedInit parent draw0 draw1 = some b ∧
      (p.paramType = ParamType.continuous → lo ≤ b.1 ∧ b.1 ≤ hi) ∧
      (p.paramType = ParamType.integer →
        lo - 1/2 ≤ b.1 ∧ b.1 ≤ hi + 1/2 ∧
        (∀ li hj : ℤ, lo = (li : ℚ) → hi = (hj : ℚ) →
          lo ≤ b.1 ∧ b.1 ≤ hi)) := by
  unfold PaddyParameter.newSeedInit
  simp only [hlim]
  by_cases hn : p.normalization = false
  · simp only [hn, if_true]
    obtain ⟨hc1, hc2⟩ := clip_mem draw0 lo hi hle
    cases hpt : p.paramType with
    | continuous =>
      refine ⟨(clip draw0 lo hi,
        if p.gaussian = GaussianType.scaled then draw1 else 0), rfl, ?_, ?_⟩
      · intro hh
        exact ⟨hc1, hc2⟩
      · intro hh
        exact ParamType.noConfusion hh
    | integer =>
      refine ⟨(((roundHalfEven (clip draw0 lo hi) : ℤ) : ℚ),
        if p.gaussian = GaussianType.scaled then draw1 else 0), rfl, ?_, ?_⟩
      · intro hh
        exact ParamType.noConfusion hh
      · intro hh
        exact roundHE_bounds_in (clip draw0 lo hi) lo hi hc1 hc2
  · simp only [hn, if_false]
    obtain ⟨hc1, hc2⟩ := clip_mem (p.inverseNormP draw0) lo hi hle
    cases hpt : p.paramType with
    | continuous =>
      refine ⟨(clip (p.inverseNormP draw0) lo hi,
        if p.gaussian = GaussianType.scaled then draw1 else 0), rfl, ?_, ?_⟩
      · intro hh
        exact ⟨hc1, hc2⟩
      · intro hh
        exact ParamType.noConfusion hh
    | integer =>
      refine ⟨(((roundHalfEven (clip (p.inverseNormP draw0) lo hi) : ℤ) : ℚ),
        if p.gaussian = GaussianType.scaled then draw1 else 0), rfl, ?_, ?_⟩
      · intro hh
        exact ParamType.noConfusion hh
      · intro hh
        exact roundHE_bounds_in (clip (p.inverseNormP draw0) lo hi) lo hi hc1 hc2

/-- Witness for C6: an out-of-band normalised draw (`5`) is denormalised
and clipped back into `[0, 1]`. -/
theorem claim_c6_witness :
    c6wParam.newSeedInit (1/2, 0) 5 0 = some (1, 0) ∧
    (0 : ℚ) ≤ 1 ∧ (1 : ℚ) ≤ 1 := by
  have hval : c6wParam.newSeedInit (1/2, 0) 5 0 = some (1, 0) := by
    with_unfolding_all rfl
  obtain ⟨b, hb, hcont, -⟩ := claim_c6_perturb_clipped c6wParam 0 1 rfl
    (by norm_num) (1/2, 0) 5 0
  rw [hval] at hb
  injection hb with hb2
  subst hb2
  exact ⟨hval, (hcont rfl).1, (hcont rfl).2⟩

/-! ## Claim C8: quota sum equals seeds appended equals generation width -/

/-- C8: in any iteration that reaches propagation (`runnerStep` returns
`next`), the number of entries appended to both ledgers equals the sum of
the final (pollinated) quotas `S[:, 1]`, and the generation record closed
for the iteration is `[seed_counter, seed_counter + sum − 1]`, whose
width is that same sum. -/
theorem claim_c8_quota_sum_matches_generation
    (space : List PaddyParameter) (o : Oracle) (st st1 st4 : RunnerState)
    (s : List (ℤ × ℚ))
    (hsow : sowingFull st = some (st1, s))
    (hstep : runnerStep space o st = StepOut.next st4) :
    st4.seedParams.length = st.seedParams.length +
      ((((s.map (fun e => e.1)).zip
        (o.pollin { st1 with yt := st1.ytPrime } s)).map
          (fun e => e.2)).sum) ∧
    st4.seedFitness.length = st.seedFitness.length +
      ((((s.map (fun e => e.1)).zip
        (o.pollin { st1 with yt := st1.ytPrime } s)).map
          (fun e => e.2)).sum) ∧
    genGet st4.generationData (st.paddyCounter + 1) =
      some ((st.seedCounter : ℤ),
        (st.seedCounter : ℤ) + (((((s.map (fun e => e.1)).zip
          (o.pollin { st1 with yt := st1.ytPrime } s)).map
            (fun e => e.2)).sum : ℕ) : ℤ) - 1) := by
  obtain ⟨st1b, sb, hsb, hneb, hnpb⟩ :=
    runnerStep_next_elim space o st st4 hstep
  rw [hsow] at hsb
  injection hsb with hsb2
  injection hsb2 with ha hb
  subst ha
  subst hb
  obtain ⟨n1, n2, n3, n4, n5, n6, n7, n8, n9, n10, n11⟩ :=
    newPropogation_spec space o _ _ st4 hnpb
  obtain ⟨f1, f2, f3, f4, f5, f6, f7, f8, f9, f10⟩ :=
    sowingFull_frame st st1 s hsow
  have n2b : st4.seedParams.length = st1.seedParams.length +
      ((((s.map (fun e => e.1)).zip
        (o.pollin { st1 with yt := st1.ytPrime } s)).map
          (fun e => e.2)).sum) := n2
  have n3b : st4.seedFitness.length = st1.seedFitness.length +
      ((((s.map (fun e => e.1)).zip
        (o.pollin { st1 with yt := st1.ytPrime } s)).map
          (fun e => e.2)).sum) := n3
  have n4b : st4.generationData = genWrite st1.generationData
      (st1.paddyCounter + 1)
      ((st1.seedCounter : ℤ), (st1.seedCounter : ℤ) +
        (((((s.map (fun e => e.1)).zip
          (o.pollin { st1 with yt := st1.ytPrime } s)).map
            (fun e => e.2)).sum : ℕ) : ℤ) - 1) := n4
  refine ⟨?_, ?_, ?_⟩
  · rw [n2b, f1]
  · rw [n3b, f2]
  · rw [n4b, f4, f5, genGet_write, if_pos rfl]

/-- Witness for C8: the concrete iteration `wSt → wSt4` appends
`1 + 1 = 2` seeds and closes generation 1 as `[5, 6]` (width 2). -/
theorem claim_c8_witness :
    wSt4.seedParams.length = wSt.seedParams.length + 2 ∧
    wSt4.seedFitness.length = wSt.seedFitness.length + 2 ∧
    genGet wSt4.generationData (wSt.paddyCounter + 1) = some (5, 6) := by
  obtain ⟨h1, h2, h3⟩ := claim_c8_quota_sum_matches_generation wSpace wOracle
    wSt wSt1 wSt4 [(4, 1), (3, 0)] (by with_unfolding_all rfl)
    (by with_unfolding_all rfl)
  refine ⟨?_, ?_, ?_⟩
  · exact h1.trans (by with_unfolding_all rfl)
  · exact h2.trans (by with_unfolding_all rfl)
  · exact h3.trans (by with_unfolding_all rfl)
